import Mathlib

/-!
Verification of the drivechat document-management core: a shallow embedding of
the data model (`models/item.py`, `models/embedding.py`), the vector-store
operations (`utils/db_manager.py`) and the lifecycle service
(`services/item_service.py`), with theorems settling the spec's claims about
them.

Database state is modelled as the committed contents of the `items` and
`embeddings` tables (lists of rows, list order = table scan order).  A
transaction's effect is the new committed state; rollback leaves the state
unchanged, which models "no partial rows visible to any reader".  Identities
(UUIDs / strings across the two schema variants) are opaque `String`s,
timestamps are abstract `Nat` instants, and vectors are lists of rationals.
The pgvector cosine-distance operator is floating-point and is abstracted as a
distance-function parameter `dist`; every theorem below holds for all `dist`.
-/

namespace DriveChat

/-- Embedding vectors (fixed-dimension float arrays in the code) as lists of
rationals. -/
abbrev Vec := List ℚ

/-- Row of the `items` table (models/item.py `Item`).  The field `owner` is the
owner identity: column `owner_id` in `models/item.py`, populated from
`metadata['owner']` by `db_manager.insert_document` and selected as `i.owner`
by the search SQL — the repository's two schema variants use a single
owner-identity column, modelled here once. -/
structure Item where
  id : String
  file_name : String
  mime_type : String
  uri : String
  owner : String
  conversation_id : String
  last_updated : Nat
  active : Bool
deriving DecidableEq

/-- Row of the `embeddings` table (models/embedding.py `Embedding`): one chunk
of a document.  The surrogate UUID primary key is auto-generated and never read
by any code path under verification, so it is elided; rows are constrained by
the composite unique key `(item_id, page)` (`uix_item_page`). -/
structure Chunk where
  item_id : String
  page : Int
  chunk_text : String
  embedding : Option Vec
  last_updated : Nat
deriving DecidableEq

/-- Committed database state: the `items` and `embeddings` tables. -/
structure DBState where
  items : List Item
  chunks : List Chunk
deriving DecidableEq

/-- Row of the `users` table (models/user.py), restricted to the fields the
item service reads. -/
structure User where
  id : String
  email : String
deriving DecidableEq

/-- Row of the `conversations` table (models/conversation.py), restricted to
the fields the item service reads. -/
structure Conversation where
  id : String
  user_id : String
deriving DecidableEq

/-- A LlamaIndex node as consumed by `insert_document`: page label from
`extra_info` (absent labels default to -1 via `.get('page_label', -1)`),
chunk text from `get_content()`, and an optional embedding vector. -/
structure Node where
  page_label : Option Int
  content : String
  embedding : Option Vec
deriving DecidableEq

/-- The metadata dict handed to `insert_document`. -/
structure Metadata where
  id : String
  file_name : String
  mime_type : String
  uri : String
  owner : String
  conversation_id : String
deriving DecidableEq

/-- One row of the result set of `search_similar_chunks`: the columns its
SELECT list projects. -/
structure Hit where
  doc_id : String
  file_name : String
  uri : String
  owner : String
  chunk_text : String
  page : Int
  similarity : ℚ
deriving DecidableEq

/-- Fault injection for the ingestion transaction: run to commit unharmed,
raise after `k` chunk rows have been staged in the session, or fail at the
final commit (connection loss, etc.).  Any raised exception is caught by
`insert_document`'s `except` block, which rolls the transaction back. -/
inductive InjectFault where
  | ok
  | afterChunks (k : Nat)
  | atCommit
deriving DecidableEq

/-- Composite key of the `uix_item_page` unique constraint. -/
def pageKey (e : Chunk) : String × Int := (e.item_id, e.page)

/-- Decides whether a list of composite keys contains a duplicate, i.e.
whether inserting rows with these keys violates `uix_item_page`. -/
def hasDupKeys : List (String × Int) → Bool
  | [] => false
  | k :: rest => rest.contains k || hasDupKeys rest

/-- The `Embedding(...)` row built for one node inside `insert_document`'s
loop: `page = int(extra_info.get('page_label', -1))`, text, vector,
`last_updated = now`. -/
def nodeToChunk (itemId : String) (now : Nat) (n : Node) : Chunk :=
  { item_id := itemId
    page := n.page_label.getD (-1)
    chunk_text := n.content
    embedding := n.embedding
    last_updated := now }

/-- The `Item(...)` row built by `insert_document` from the metadata dict,
with `last_updated = datetime.now()` and `active = True`. -/
def mkItem (md : Metadata) (now : Nat) : Item :=
  { id := md.id
    file_name := md.file_name
    mime_type := md.mime_type
    uri := md.uri
    owner := md.owner
    conversation_id := md.conversation_id
    last_updated := now
    active := true }

/-- DatabaseManager.insert_document (utils/db_manager.py:108-171).  Builds the
Item row, stages one Chunk row per node, and commits; every exception path
(injected fault mid-loop or at commit, or an integrity error from the `items`
primary key or the `(item_id, page)` unique constraint) is caught, the
transaction is rolled back — the committed state is returned unchanged — and
`None` is returned to the caller. -/
def insert_document (s : DBState) (nodes : List Node) (md : Metadata) (now : Nat)
    (fault : InjectFault) : DBState × Option Item :=
  let item := mkItem md now
  let newChunks := nodes.map (nodeToChunk item.id now)
  match fault with
  | .afterChunks _ => (s, none)
  | .atCommit => (s, none)
  | .ok =>
    if s.items.any (fun i => i.id == item.id)
        || hasDupKeys ((s.chunks ++ newChunks).map pageKey) then
      (s, none)
    else
      ({ items := s.items ++ [item], chunks := s.chunks ++ newChunks }, some item)

/-- DatabaseManager.get_document (utils/db_manager.py:173-187):
`query(Item).filter(Item.id == doc_id).first()`. -/
def get_document (s : DBState) (doc_id : String) : Option Item :=
  (s.items.filter fun it => it.id == doc_id).head?

/-- The row set of the search query's FROM/JOIN/WHERE clauses
(utils/db_manager.py:212-224): `embeddings e JOIN items i ON i.id = e.item_id
WHERE e.embedding IS NOT NULL` plus `AND i.active = true` exactly when
`active_only`.  No owner condition appears anywhere in the query. -/
def matchingRows (s : DBState) (active_only : Bool) : List (Item × Chunk) :=
  (s.chunks.filter fun e => e.embedding.isSome).flatMap fun e =>
    (s.items.filter fun i => i.id == e.item_id && (!active_only || i.active)).map
      fun i => (i, e)

/-- Sort key of the query's `ORDER BY e.embedding <=> :query_embedding`:
the distance from the row's vector to the query vector. -/
def rowDist (dist : Vec → Vec → ℚ) (q : Vec) (r : Item × Chunk) : ℚ :=
  dist (r.2.embedding.getD []) q

/-- The SELECT list applied to one joined row: document columns, chunk text
and page, and `1 - (e.embedding <=> :query_embedding) as similarity`. -/
def rowToHit (dist : Vec → Vec → ℚ) (q : Vec) (r : Item × Chunk) : Hit :=
  { doc_id := r.1.id
    file_name := r.1.file_name
    uri := r.1.uri
    owner := r.1.owner
    chunk_text := r.2.chunk_text
    page := r.2.page
    similarity := 1 - rowDist dist q r }

/-- DatabaseManager.search_similar_chunks (utils/db_manager.py:189-235) as a
relation on results: `result` is a possible value of the query.  SQL `ORDER BY`
constrains row order only up to the sort key — rows at equal distance may come
back in any order, no secondary key is given — so the query denotes the set of
lists obtained by ordering the matching rows by nondecreasing distance,
keeping the first `limit`, and projecting the SELECT list. -/
def search_similar_chunks (s : DBState) (dist : Vec → Vec → ℚ) (query_embedding : Vec)
    (limit : Nat) (active_only : Bool) (result : List Hit) : Prop :=
  ∃ perm : List (Item × Chunk),
    (matchingRows s active_only).Perm perm ∧
    perm.Chain' (fun a b => rowDist dist query_embedding a ≤ rowDist dist query_embedding b) ∧
    result = (perm.take limit).map (rowToHit dist query_embedding)

/-- Summary dict returned by `delete_conversation_items`. -/
structure DeleteSummary where
  message : String
  deleted_count : Nat
deriving DecidableEq

/-- ItemService.get_item_by_id (services/item_service.py:13-18):
`query(Item).filter(Item.id == item_id, Item.owner_id == owner.id).first()`. -/
def get_item_by_id (s : DBState) (owner : User) (item_id : String) : Option Item :=
  (s.items.filter fun it => it.id == item_id && it.owner == owner.id).head?

/-- Rewrites the first element of a list satisfying `p` with `f`; models an
ORM mutation of the single object returned by `.first()`. -/
def updateFirst (p : α → Bool) (f : α → α) : List α → List α
  | [] => []
  | x :: xs => if p x then f x :: xs else x :: updateFirst p f xs

/-- ItemService.delete_item (services/item_service.py:108-118): look the item
up scoped to the owner; if absent return False, otherwise soft delete — set
`active = False` and `last_updated = now` on that row, commit — and return
True. -/
def delete_item (s : DBState) (owner : User) (item_id : String) (now : Nat) :
    DBState × Bool :=
  match get_item_by_id s owner item_id with
  | none => (s, false)
  | some _ =>
    ({ s with
        items := updateFirst (fun it => it.id == item_id && it.owner == owner.id)
          (fun it => { it with active := false, last_updated := now }) s.items },
      true)

/-- ItemService.hard_delete_item (services/item_service.py:120-128): look the
item up scoped to the owner; if absent return False, otherwise
`session.delete(item)` — the DELETE removes the row with that primary key and
cascades to the `embeddings` rows referencing it (relationship cascade
"all, delete-orphan" in models/item.py:26 and `ondelete="CASCADE"` on
`embeddings.item_id` in models/embedding.py:16) — commit, and return True. -/
def hard_delete_item (s : DBState) (owner : User) (item_id : String) :
    DBState × Bool :=
  match get_item_by_id s owner item_id with
  | none => (s, false)
  | some it =>
    ({ items := s.items.filter fun j => !(j.id == it.id)
       chunks := s.chunks.filter fun e => !(e.item_id == it.id) },
      true)

/-- The filter of `delete_conversation_items`'s query: the item belongs to the
given conversation AND to the given owner. -/
def convOwnerMatch (conversation : Conversation) (owner : User) (it : Item) : Bool :=
  it.conversation_id == conversation.id && it.owner == owner.id

/-- ItemService.delete_conversation_items (services/item_service.py:130-167):
query all items matching both the conversation and the owner; if none, report
`deleted_count = 0`; otherwise delete each (hard when `permanent`, cascading
to chunks; soft otherwise, setting `active = False` and `last_updated = now`),
commit once, and report the count of items acted on. -/
def delete_conversation_items (s : DBState) (conversation : Conversation)
    (owner : User) (permanent : Bool) (now : Nat) : DBState × DeleteSummary :=
  let matched := s.items.filter (convOwnerMatch conversation owner)
  if matched.isEmpty then
    (s, { message := "No items found", deleted_count := 0 })
  else if permanent then
    ({ items := s.items.filter fun it => !(convOwnerMatch conversation owner it)
       chunks := s.chunks.filter fun e => !(matched.any fun it => it.id == e.item_id) },
      { message := "Successfully permanently deleted items"
        deleted_count := matched.length })
  else
    ({ items := s.items.map fun it =>
          if convOwnerMatch conversation owner it then
            { it with active := false, last_updated := now }
          else it
       chunks := s.chunks },
      { message := "Successfully deactivated items"
        deleted_count := matched.length })

/-- Value of one Python attribute of an Item object: the string-valued
columns, the boolean `active` flag, or a timestamp. -/
inductive AttrValue where
  | str (v : String)
  | flag (v : Bool)
  | time (v : Nat)
deriving DecidableEq

/-- A Python Item object seen as its attribute map: `none` at names for which
`hasattr` is false. -/
def PyItem := String → Option AttrValue

/-- Python `hasattr(item, key)`. -/
def hasattrPy (it : PyItem) (k : String) : Bool := (it k).isSome

/-- Python `setattr(item, key, value)`. -/
def setattrPy (it : PyItem) (k : String) (v : AttrValue) : PyItem :=
  fun k' => if k' == k then some v else it k'

/-- The attribute map of an `Item` model instance: its mapped columns. -/
def Item.attrs (it : Item) : PyItem := fun k =>
  if k == "id" then some (.str it.id)
  else if k == "file_name" then some (.str it.file_name)
  else if k == "mime_type" then some (.str it.mime_type)
  else if k == "uri" then some (.str it.uri)
  else if k == "owner" then some (.str it.owner)
  else if k == "conversation_id" then some (.str it.conversation_id)
  else if k == "last_updated" then some (.time it.last_updated)
  else if k == "active" then some (.flag it.active)
  else none

/-- The attribute-setting loop of `update_item`: for each keyword argument,
`if hasattr(item, key): setattr(item, key, value)`. -/
def applyKwargs (it : PyItem) (kwargs : List (String × AttrValue)) : PyItem :=
  kwargs.foldl
    (fun acc kv => if hasattrPy acc kv.1 then setattrPy acc kv.1 kv.2 else acc) it

/-- ItemService.update_item (services/item_service.py:98-106): for each
keyword argument, `if hasattr(item, key): setattr(item, key, value)` —
unknown keys are skipped without error — then unconditionally
`item.last_updated = datetime.now()`, commit, and return the mutated item. -/
def update_item (it : PyItem) (kwargs : List (String × AttrValue)) (now : Nat) :
    PyItem :=
  setattrPy (applyKwargs it kwargs) "last_updated" (.time now)

/-! ## Concrete fixtures used by witnesses and counterexamples -/

/-- A distance function making every pair of vectors equidistant; instantiates
the abstract cosine-distance parameter in concrete scenarios. -/
def dist0 : Vec → Vec → ℚ := fun _ _ => 0

/-- Requesting user "alice". -/
def exUser : User := { id := "alice", email := "alice@example.com" }

/-- An active document owned by alice. -/
def exItemA : Item :=
  { id := "docA", file_name := "a.pdf", mime_type := "application/pdf"
    uri := "drive://a", owner := "alice", conversation_id := "conv1"
    last_updated := 0, active := true }

/-- A soft-deleted (inactive) document owned by alice. -/
def exItemB : Item :=
  { id := "docB", file_name := "b.pdf", mime_type := "application/pdf"
    uri := "drive://b", owner := "alice", conversation_id := "conv1"
    last_updated := 0, active := false }

/-- A document owned by bob. -/
def exItemBob : Item :=
  { id := "docC", file_name := "c.pdf", mime_type := "application/pdf"
    uri := "drive://c", owner := "bob", conversation_id := "conv2"
    last_updated := 0, active := true }

/-- Page-1 chunk of `docA`, with a vector. -/
def exChunkA1 : Chunk :=
  { item_id := "docA", page := 1, chunk_text := "alpha", embedding := some [1], last_updated := 0 }

/-- Page-2 chunk of `docA`, with a vector. -/
def exChunkA2 : Chunk :=
  { item_id := "docA", page := 2, chunk_text := "beta", embedding := some [2], last_updated := 0 }

/-- Page-1 chunk of the inactive `docB`, with a vector. -/
def exChunkB1 : Chunk :=
  { item_id := "docB", page := 1, chunk_text := "gamma", embedding := some [3], last_updated := 0 }

/-- Page-1 chunk of bob's `docC`, with a vector. -/
def exChunkC1 : Chunk :=
  { item_id := "docC", page := 1, chunk_text := "delta", embedding := some [4], last_updated := 0 }

/-- A chunk of `docA` whose embedding is null (failed embedding step). -/
def exChunkNoVec : Chunk :=
  { item_id := "docA", page := 9, chunk_text := "silent", embedding := none, last_updated := 0 }

/-- State holding alice's active `docA` (chunk on page 1) only. -/
def exState1 : DBState := { items := [exItemA], chunks := [exChunkA1] }

/-- State holding alice's active `docA` and inactive `docB`, one vectorised
chunk each plus a vectorless chunk of `docA`. -/
def exState2 : DBState :=
  { items := [exItemA, exItemB], chunks := [exChunkA1, exChunkB1, exChunkNoVec] }

/-- State holding only bob's `docC` with its chunk. -/
def bobState : DBState := { items := [exItemBob], chunks := [exChunkC1] }

/-- State where `docA` has two chunks at the same distance from any query
under `dist0`. -/
def tieState : DBState := { items := [exItemA], chunks := [exChunkA1, exChunkA2] }

/-- Conversation `conv1` belonging to alice. -/
def exConv : Conversation := { id := "conv1", user_id := "alice" }

/-- Metadata for a fresh document `docNew`. -/
def mdNew : Metadata :=
  { id := "docNew", file_name := "n.pdf", mime_type := "application/pdf"
    uri := "drive://n", owner := "alice", conversation_id := "conv1" }

/-- A node carrying page label 1 and a vector. -/
def nodeP1 : Node := { page_label := some 1, content := "alpha", embedding := some [1] }

/-- A second node also carrying page label 1: ingesting it together with
`nodeP1` violates the `(item_id, page)` unique constraint. -/
def nodeP1' : Node := { page_label := some 1, content := "alpha2", embedding := some [5] }

/-- A node carrying page label 2. -/
def nodeP2 : Node := { page_label := some 2, content := "beta", embedding := some [2] }

/-! ## Helper lemmas -/

/-- The head of a filtered list satisfies the filter predicate and belongs to
the original list. -/
theorem head?_filter_spec (p : α → Bool) (l : List α) (x : α)
    (h : (l.filter p).head? = some x) : p x = true ∧ x ∈ l := by
  induction l with
  | nil => simp at h
  | cons a as ih =>
    rw [List.filter_cons] at h
    by_cases hp : p a = true
    · rw [if_pos hp, List.head?_cons, Option.some.injEq] at h
      subst h
      exact ⟨hp, List.mem_cons_self a as⟩
    · rw [if_neg hp] at h
      obtain ⟨h1, h2⟩ := ih h
      exact ⟨h1, List.mem_cons_of_mem a h2⟩

/-- When the first element of `l` satisfying `p` is `x`, the list splits as
`pre ++ x :: post` with `p` false on `pre`, and `updateFirst` rewrites exactly
that occurrence. -/
theorem updateFirst_split (p : α → Bool) (f : α → α) (l : List α) (x : α)
    (h : (l.filter p).head? = some x) :
    ∃ pre post, l = pre ++ x :: post ∧ (∀ j ∈ pre, p j = false) ∧
      updateFirst p f l = pre ++ f x :: post := by
  induction l with
  | nil => simp at h
  | cons a as ih =>
    rw [List.filter_cons] at h
    by_cases hp : p a = true
    · rw [if_pos hp, List.head?_cons, Option.some.injEq] at h
      subst h
      exact ⟨[], as, rfl, by simp, by simp [updateFirst, hp]⟩
    · rw [if_neg hp] at h
      obtain ⟨pre, post, h1, h2, h3⟩ := ih h
      refine ⟨a :: pre, post, by simp [h1], ?_, by simp [updateFirst, hp, h3]⟩
      intro j hj
      rcases List.mem_cons.mp hj with rfl | hj2
      · exact Bool.eq_false_iff.mpr hp
      · exact h2 j hj2

/-- A chain holds for any list when the relation is universally true. -/
theorem chain'_of_forall {R : α → α → Prop} (hR : ∀ a b, R a b) (l : List α) :
    l.Chain' R := by
  cases l with
  | nil => exact List.chain'_nil
  | cons a as =>
    induction as generalizing a with
    | nil => exact List.chain'_singleton a
    | cons b bs ih => exact List.Chain'.cons (hR a b) (ih b)

/-- Membership in the search query's joined, filtered row set. -/
theorem mem_matchingRows (s : DBState) (ao : Bool) (i : Item) (e : Chunk) :
    (i, e) ∈ matchingRows s ao ↔
      e ∈ s.chunks ∧ e.embedding.isSome = true ∧ i ∈ s.items ∧
        i.id = e.item_id ∧ (ao = true → i.active = true) := by
  unfold matchingRows
  simp only [List.mem_flatMap, List.mem_map, List.mem_filter]
  constructor
  · rintro ⟨e2, ⟨he2, hsome⟩, i2, ⟨hi2, hcond⟩, heq⟩
    obtain ⟨rfl, rfl⟩ := Prod.mk.injEq .. ▸ heq
    rw [Bool.and_eq_true, beq_iff_eq] at hcond
    refine ⟨he2, hsome, hi2, hcond.1, ?_⟩
    intro hao
    subst hao
    simpa using hcond.2
  · rintro ⟨he, hsome, hi, hid, hact⟩
    refine ⟨e, ⟨he, hsome⟩, i, ⟨hi, ?_⟩, rfl⟩
    rw [Bool.and_eq_true, beq_iff_eq]
    refine ⟨hid, ?_⟩
    cases ao with
    | false => simp
    | true => simpa using hact rfl

/-- A list flat-mapped through a singleton-valued function is a map. -/
theorem flatMap_singleton_eq_map (l : List α) (f : α → β) :
    (l.flatMap fun a => [f a]) = l.map f := by
  induction l with
  | nil => rfl
  | cons a as ih => simp [List.flatMap_cons, ih]

/-! ## Claim theorems -/

/-- C2 (confirmed): `insert_document` is all-or-nothing.  Every run either
leaves the committed state unchanged and returns `None`, or commits exactly
the one Item row plus the N chunk rows together and returns the item; in
particular an injected failure after any number `k` of staged chunk inserts
(so also after N-1 of N), or at commit, rolls back to the exact prior state,
leaving zero rows of the document visible to any reader. -/
theorem insert_document_atomic (s : DBState) (nodes : List Node) (md : Metadata)
    (now : Nat) (fault : InjectFault) (k : Nat) :
    (insert_document s nodes md now fault = (s, none) ∨
      insert_document s nodes md now fault =
        ({ items := s.items ++ [mkItem md now]
           chunks := s.chunks ++ nodes.map (nodeToChunk (mkItem md now).id now) },
          some (mkItem md now))) ∧
    insert_document s nodes md now (.afterChunks k) = (s, none) ∧
    insert_document s nodes md now .atCommit = (s, none) := by
  refine ⟨?_, rfl, rfl⟩
  cases fault with
  | ok =>
    simp only [insert_document]
    split
    · exact Or.inl rfl
    · exact Or.inr rfl
  | afterChunks k2 => exact Or.inl rfl
  | atCommit => exact Or.inl rfl

/-- C4 (counterexample): no `DuplicateChunk` error is surfaced to the caller.
Ingesting two nodes that collide on `(item_id, page)` makes `insert_document`
catch the integrity error, roll back and return `None` — by the code's
`except` block the very same outcome as an unrelated storage failure at
commit, so the caller cannot tell a duplicate-page violation apart from any
other failure; no typed `DuplicateChunk` error exists in the code. -/
theorem insert_duplicate_cex :
    insert_document exState1 [nodeP1, nodeP1'] mdNew 5 .ok = (exState1, none) ∧
    insert_document exState1 [nodeP2] mdNew 5 .atCommit = (exState1, none) ∧
    (insert_document exState1 [nodeP1, nodeP1'] mdNew 5 .ok).2 =
      (insert_document exState1 [nodeP2] mdNew 5 .atCommit).2 := by
  refine ⟨by decide, rfl, by decide⟩

/-- C4 (amended): the `(item_id, page)` pair is unique across persisted
chunks — `insert_document` preserves the no-duplicate-keys invariant — and an
insert whose staged rows would violate the constraint aborts the whole
transaction: the state is returned unchanged (no partial insert, no silent
overwrite of the existing chunk) and the caller receives `None` rather than a
typed `DuplicateChunk` error. -/
theorem insert_duplicate_aborts (s : DBState) (nodes : List Node) (md : Metadata)
    (now : Nat) (fault : InjectFault) :
    (hasDupKeys ((s.chunks ++ nodes.map (nodeToChunk (mkItem md now).id now)).map pageKey)
        = true →
      insert_document s nodes md now .ok = (s, none)) ∧
    (hasDupKeys (s.chunks.map pageKey) = false →
      hasDupKeys ((insert_document s nodes md now fault).1.chunks.map pageKey) = false) := by
  constructor
  · intro hdup
    simp only [insert_document, hdup, Bool.or_true, if_true]
  · intro huniq
    cases fault with
    | afterChunks k => simpa using huniq
    | atCommit => simpa using huniq
    | ok =>
      simp only [insert_document]
      split
      · simpa using huniq
      · next hcond =>
        have hc := Bool.eq_false_iff.mpr hcond
        rcases Bool.or_eq_false_iff.mp hc with ⟨_, h2⟩
        simpa using h2

/-- C4 (witness): a concrete duplicate-page ingestion aborts with the state
unchanged, and a concrete clean ingestion keeps the uniqueness invariant. -/
theorem insert_duplicate_aborts_witness :
    insert_document exState1 [nodeP1, nodeP1'] mdNew 5 .ok = (exState1, none) ∧
    hasDupKeys ((insert_document exState1 [nodeP2] mdNew 5 .ok).1.chunks.map pageKey) = false :=
  ⟨(insert_duplicate_aborts exState1 [nodeP1, nodeP1'] mdNew 5 .ok).1 (by decide),
   (insert_duplicate_aborts exState1 [nodeP2] mdNew 5 .ok).2 (by decide)⟩

/-- C7 (confirmed): when a document exists for the given owner, soft delete
returns True, leaves every Chunk row untouched, leaves every other Document
row untouched (the lists agree outside the matched position), and rewrites
only the matched Document row, setting `active := false` (and refreshing
`last_updated`) while copying every other field. -/
theorem delete_item_soft_frame (s : DBState) (owner : User) (item_id : String)
    (now : Nat) (it : Item) (h : get_item_by_id s owner item_id = some it) :
    (delete_item s owner item_id now).2 = true ∧
    (delete_item s owner item_id now).1.chunks = s.chunks ∧
    ∃ pre post, s.items = pre ++ it :: post ∧
      (delete_item s owner item_id now).1.items =
        pre ++ ({ it with active := false, last_updated := now }) :: post := by
  have h' : (s.items.filter fun j => j.id == item_id && j.owner == owner.id).head?
      = some it := h
  obtain ⟨pre, post, h1, _, h3⟩ :=
    updateFirst_split (fun j => j.id == item_id && j.owner == owner.id)
      (fun j => { j with active := false, last_updated := now }) s.items it h'
  have hd : delete_item s owner item_id now =
      ({ s with
          items := updateFirst (fun j => j.id == item_id && j.owner == owner.id)
            (fun j => { j with active := false, last_updated := now }) s.items },
        true) := by
    unfold delete_item
    rw [h]
  rw [hd]
  exact ⟨rfl, rfl, pre, post, h1, h3⟩

/-- C7 (witness): soft-deleting alice's `docA` in a concrete two-document
state returns True and leaves the chunk table untouched. -/
theorem delete_item_soft_frame_witness :
    (delete_item exState2 exUser "docA" 7).2 = true ∧
    (delete_item exState2 exUser "docA" 7).1.chunks = exState2.chunks :=
  ⟨(delete_item_soft_frame exState2 exUser "docA" 7 exItemA rfl).1,
   (delete_item_soft_frame exState2 exUser "docA" 7 exItemA rfl).2.1⟩

/-- C8 (confirmed): when a document exists for the given owner, hard delete
returns True, removes that Document row, and removes every Chunk row whose
`item_id` references it, in one step on the committed state; afterwards
`get_document` for that id returns none and the count of chunks with that
document id is 0. -/
theorem hard_delete_item_spec (s : DBState) (owner : User) (item_id : String)
    (it : Item) (h : get_item_by_id s owner item_id = some it) :
    (hard_delete_item s owner item_id).2 = true ∧
    get_document (hard_delete_item s owner item_id).1 item_id = none ∧
    ((hard_delete_item s owner item_id).1.chunks.filter
      fun e => e.item_id == item_id).length = 0 ∧
    (hard_delete_item s owner item_id).1.items
      = s.items.filter (fun j => !(j.id == it.id)) ∧
    (hard_delete_item s owner item_id).1.chunks
      = s.chunks.filter (fun e => !(e.item_id == it.id)) := by
  have h' : (s.items.filter fun j => j.id == item_id && j.owner == owner.id).head?
      = some it := h
  have hid : it.id = item_id := by
    have hp := (head?_filter_spec _ _ _ h').1
    rw [Bool.and_eq_true, beq_iff_eq] at hp
    exact hp.1
  have hd : hard_delete_item s owner item_id =
      ({ items := s.items.filter fun j => !(j.id == it.id)
         chunks := s.chunks.filter fun e => !(e.item_id == it.id) },
        true) := by
    unfold hard_delete_item
    rw [h]
  rw [hd]
  refine ⟨rfl, ?_, ?_, rfl, rfl⟩
  · unfold get_document
    have hnil : (((s.items.filter fun j => !(j.id == it.id)).filter
        fun j => j.id == item_id)) = [] := by
      rw [List.filter_filter]
      apply List.filter_eq_nil_iff.mpr
      intro a _
      subst hid
      cases hcase : a.id == it.id <;> simp [hcase]
    rw [hnil]
    rfl
  · have hnil : (((s.chunks.filter fun e => !(e.item_id == it.id)).filter
        fun e => e.item_id == item_id)) = [] := by
      rw [List.filter_filter]
      apply List.filter_eq_nil_iff.mpr
      intro a _
      subst hid
      cases hcase : a.item_id == it.id <;> simp [hcase]
    rw [hnil]
    rfl

/-- C8 (witness): hard-deleting alice's `docA` (which has two chunk rows, one
of them vectorless) returns True, makes `get_document` miss, and leaves zero
chunks referencing it. -/
theorem hard_delete_item_spec_witness :
    (hard_delete_item exState2 exUser "docA").2 = true ∧
    get_document (hard_delete_item exState2 exUser "docA").1 "docA" = none ∧
    ((hard_delete_item exState2 exUser "docA").1.chunks.filter
      fun e => e.item_id == "docA").length = 0 :=
  ⟨(hard_delete_item_spec exState2 exUser "docA" exItemA rfl).1,
   (hard_delete_item_spec exState2 exUser "docA" exItemA rfl).2.1,
   (hard_delete_item_spec exState2 exUser "docA" exItemA rfl).2.2.1⟩

/-- Soft bulk delete, branch-free form: items are mapped (matching rows
deactivated), chunks are untouched, and the count is the number of matches —
in the empty-match branch as well. -/
theorem delete_conversation_items_soft_norm (s : DBState) (conv : Conversation)
    (owner : User) (now : Nat) :
    (delete_conversation_items s conv owner false now).1.items =
      (s.items.map fun it => if convOwnerMatch conv owner it then
        { it with active := false, last_updated := now } else it) ∧
    (delete_conversation_items s conv owner false now).1.chunks = s.chunks ∧
    (delete_conversation_items s conv owner false now).2.deleted_count =
      (s.items.filter (convOwnerMatch conv owner)).length := by
  simp only [delete_conversation_items]
  by_cases hemp : (s.items.filter (convOwnerMatch conv owner)).isEmpty = true
  · rw [if_pos hemp]
    have hnil : s.items.filter (convOwnerMatch conv owner) = [] :=
      List.isEmpty_iff.mp hemp
    have hnone : ∀ a ∈ s.items, ¬ convOwnerMatch conv owner a = true :=
      List.filter_eq_nil_iff.mp hnil
    refine ⟨?_, rfl, by rw [hnil]; rfl⟩
    have : (s.items.map fun it => if convOwnerMatch conv owner it then
        { it with active := false, last_updated := now } else it)
        = s.items.map (fun it => it) := by
      apply List.map_congr_left
      intro a ha
      rw [if_neg (hnone a ha)]
    rw [this]
    simp
  · rw [if_neg hemp]
    exact ⟨rfl, rfl, rfl⟩

/-- Hard bulk delete, branch-free form: items are filtered to the
non-matching rows and the count is the number of matches — in the empty-match
branch as well. -/
theorem delete_conversation_items_hard_norm (s : DBState) (conv : Conversation)
    (owner : User) (now : Nat) :
    (delete_conversation_items s conv owner true now).1.items =
      (s.items.filter fun it => !(convOwnerMatch conv owner it)) ∧
    (delete_conversation_items s conv owner true now).2.deleted_count =
      (s.items.filter (convOwnerMatch conv owner)).length := by
  simp only [delete_conversation_items]
  by_cases hemp : (s.items.filter (convOwnerMatch conv owner)).isEmpty = true
  · rw [if_pos hemp]
    have hnil : s.items.filter (convOwnerMatch conv owner) = [] :=
      List.isEmpty_iff.mp hemp
    have hnone : ∀ a ∈ s.items, ¬ convOwnerMatch conv owner a = true :=
      List.filter_eq_nil_iff.mp hnil
    constructor
    · rw [List.filter_eq_self.mpr]
      intro a ha
      rw [Bool.not_eq_true'] at *
      exact Bool.eq_false_iff.mpr (hnone a ha)
    · rw [hnil]
      rfl
  · rw [if_neg hemp]
    exact ⟨rfl, rfl⟩

/-- C5 (confirmed): the bulk delete reports `deleted_count` equal to the
number of Documents matching both the conversation and the owner (0 when none
match, in both modes), never removes or mutates a Document whose owner
differs from the given owner even when it shares the conversation, and acts
on every matching Document: soft mode deactivates it, hard mode removes it. -/
theorem delete_conversation_items_spec (s : DBState) (conv : Conversation)
    (owner : User) (now : Nat) :
    (delete_conversation_items s conv owner false now).2.deleted_count =
      (s.items.filter (convOwnerMatch conv owner)).length ∧
    (delete_conversation_items s conv owner true now).2.deleted_count =
      (s.items.filter (convOwnerMatch conv owner)).length ∧
    (∀ it ∈ s.items, it.owner ≠ owner.id →
      it ∈ (delete_conversation_items s conv owner false now).1.items ∧
      it ∈ (delete_conversation_items s conv owner true now).1.items) ∧
    (∀ it ∈ s.items, convOwnerMatch conv owner it = true →
      ({ it with active := false, last_updated := now })
          ∈ (delete_conversation_items s conv owner false now).1.items ∧
      it ∉ (delete_conversation_items s conv owner true now).1.items) := by
  obtain ⟨hsi, _, hsc⟩ := delete_conversation_items_soft_norm s conv owner now
  obtain ⟨hhi, hhc⟩ := delete_conversation_items_hard_norm s conv owner now
  refine ⟨hsc, hhc, ?_, ?_⟩
  · intro it hit hown
    have hm : convOwnerMatch conv owner it = false := by
      have h2 : (it.owner == owner.id) = false := beq_eq_false_iff_ne.mpr hown
      simp [convOwnerMatch, h2]
    constructor
    · rw [hsi]
      exact List.mem_map.mpr ⟨it, hit, by rw [hm]; rfl⟩
    · rw [hhi]
      exact List.mem_filter.mpr ⟨hit, by rw [hm]; rfl⟩
  · intro it hit hm
    constructor
    · rw [hsi]
      exact List.mem_map.mpr ⟨it, hit, by rw [hm]; rfl⟩
    · rw [hhi]
      intro hmem
      have hkeep := (List.mem_filter.mp hmem).2
      rw [hm] at hkeep
      simp at hkeep

/-- C5 (witness): in a state holding alice's two `conv1` documents and bob's
`conv2` document, soft bulk delete for (conv1, alice) counts 2 and keeps
bob's document; docA is deactivated by it and removed by the hard variant. -/
theorem delete_conversation_items_spec_witness :
    (delete_conversation_items
        { items := [exItemA, exItemB, exItemBob], chunks := [] }
        exConv exUser false 7).2.deleted_count = 2 ∧
    exItemBob ∈ (delete_conversation_items
        { items := [exItemA, exItemB, exItemBob], chunks := [] }
        exConv exUser false 7).1.items ∧
    ({ exItemA with active := false, last_updated := 7 })
        ∈ (delete_conversation_items
          { items := [exItemA, exItemB, exItemBob], chunks := [] }
          exConv exUser false 7).1.items ∧
    exItemA ∉ (delete_conversation_items
        { items := [exItemA, exItemB, exItemBob], chunks := [] }
        exConv exUser true 7).1.items :=
  ⟨(delete_conversation_items_spec
      { items := [exItemA, exItemB, exItemBob], chunks := [] } exConv exUser 7).1,
   ((delete_conversation_items_spec
      { items := [exItemA, exItemB, exItemBob], chunks := [] } exConv exUser 7).2.2.1
      exItemBob (by decide) (by decide)).1,
   ((delete_conversation_items_spec
      { items := [exItemA, exItemB, exItemBob], chunks := [] } exConv exUser 7).2.2.2
      exItemA (by decide) (by decide)).1,
   ((delete_conversation_items_spec
      { items := [exItemA, exItemB, exItemBob], chunks := [] } exConv exUser 7).2.2.2
      exItemA (by decide) (by decide)).2⟩

/-- Setting an attribute that already exists does not change which attributes
an object has. -/
theorem hasattr_setattr (it0 : PyItem) (a : String) (v : AttrValue) (k : String)
    (ha : hasattrPy it0 a = true) :
    hasattrPy (setattrPy it0 a v) k = hasattrPy it0 k := by
  unfold hasattrPy setattrPy
  by_cases hk : (k == a) = true
  · rw [if_pos hk]
    rw [beq_iff_eq] at hk
    subst hk
    rw [hasattrPy] at ha
    rw [ha]
    rfl
  · rw [if_neg hk]

/-- The kwargs loop preserves the attribute domain of the object. -/
theorem applyKwargs_hasattr (kwargs : List (String × AttrValue)) :
    ∀ (it0 : PyItem) (k : String),
      hasattrPy (applyKwargs it0 kwargs) k = hasattrPy it0 k := by
  induction kwargs with
  | nil => intro it0 k; rfl
  | cons kv rest ih =>
    intro it0 k
    show hasattrPy (applyKwargs
      (if hasattrPy it0 kv.1 then setattrPy it0 kv.1 kv.2 else it0) rest) k = _
    rw [ih]
    by_cases hh : hasattrPy it0 kv.1 = true
    · rw [if_pos hh, hasattr_setattr it0 kv.1 kv.2 k hh]
    · rw [if_neg hh]

/-- The kwargs loop leaves attributes whose names are not among the keys
unchanged. -/
theorem applyKwargs_frame (kwargs : List (String × AttrValue)) :
    ∀ (it0 : PyItem) (k : String), k ∉ kwargs.map Prod.fst →
      applyKwargs it0 kwargs k = it0 k := by
  induction kwargs with
  | nil => intro it0 k _; rfl
  | cons kv rest ih =>
    intro it0 k hk
    rw [List.map_cons, List.mem_cons] at hk
    push_neg at hk
    show applyKwargs
      (if hasattrPy it0 kv.1 then setattrPy it0 kv.1 kv.2 else it0) rest k = it0 k
    rw [ih _ k hk.2]
    by_cases hh : hasattrPy it0 kv.1 = true
    · rw [if_pos hh]
      unfold setattrPy
      rw [if_neg (by simpa using hk.1)]
    · rw [if_neg hh]

/-- Keys that name no attribute of the object contribute nothing to the
kwargs loop: filtering them out gives the same result. -/
theorem applyKwargs_filter (kwargs : List (String × AttrValue)) :
    ∀ (it0 : PyItem),
      applyKwargs it0 (kwargs.filter fun kv => hasattrPy it0 kv.1) =
        applyKwargs it0 kwargs := by
  induction kwargs with
  | nil => intro it0; rfl
  | cons kv rest ih =>
    intro it0
    rw [List.filter_cons]
    by_cases hh : hasattrPy it0 kv.1 = true
    · rw [if_pos hh]
      show applyKwargs (if hasattrPy it0 kv.1 then setattrPy it0 kv.1 kv.2 else it0)
        (rest.filter fun kv2 => hasattrPy it0 kv2.1) = _
      rw [if_pos hh]
      have hcong : (rest.filter fun kv2 => hasattrPy it0 kv2.1) =
          (rest.filter fun kv2 => hasattrPy (setattrPy it0 kv.1 kv.2) kv2.1) := by
        apply List.filter_congr
        intro a _
        rw [hasattr_setattr it0 kv.1 kv.2 a.1 hh]
      rw [hcong, ih]
      show _ = applyKwargs (if hasattrPy it0 kv.1 then setattrPy it0 kv.1 kv.2 else it0) rest
      rw [if_pos hh]
    · rw [if_neg hh]
      rw [ih it0]
      show _ = applyKwargs (if hasattrPy it0 kv.1 then setattrPy it0 kv.1 kv.2 else it0) rest
      rw [if_neg hh]

/-- Appending one keyword argument runs the loop on the prefix first. -/
theorem applyKwargs_append_single (it0 : PyItem) (l : List (String × AttrValue))
    (kv : String × AttrValue) :
    applyKwargs it0 (l ++ [kv]) =
      (if hasattrPy (applyKwargs it0 l) kv.1 then
        setattrPy (applyKwargs it0 l) kv.1 kv.2 else applyKwargs it0 l) := by
  unfold applyKwargs
  rw [List.foldl_append]
  rfl

/-- C10 (confirmed): `update_item` always overwrites `last_updated` with the
current time (even for an empty kwargs map); attributes not named in the map,
other than `last_updated`, are unchanged; keys that name no Item attribute
are silently dropped — the result equals the run on the map with unknown keys
filtered out, with no error raised; and a key that does name an Item
attribute is set to the supplied value (shown for the last-written key). -/
theorem update_item_spec (it : Item) (kwargs : List (String × AttrValue)) (now : Nat) :
    update_item it.attrs kwargs now "last_updated" = some (.time now) ∧
    (∀ k : String, k ∉ kwargs.map Prod.fst → k ≠ "last_updated" →
      update_item it.attrs kwargs now k = it.attrs k) ∧
    update_item it.attrs (kwargs.filter fun kv => hasattrPy it.attrs kv.1) now =
      update_item it.attrs kwargs now ∧
    (∀ (k : String) (v : AttrValue), hasattrPy it.attrs k = true → k ≠ "last_updated" →
      update_item it.attrs (kwargs ++ [(k, v)]) now k = some v) := by
  refine ⟨?_, ?_, ?_, ?_⟩
  · unfold update_item setattrPy
    rw [if_pos (by rw [beq_iff_eq])]
  · intro k hk hlast
    unfold update_item setattrPy
    rw [if_neg (by simpa using hlast)]
    exact applyKwargs_frame kwargs it.attrs k hk
  · unfold update_item
    rw [applyKwargs_filter kwargs it.attrs]
  · intro k v hh hlast
    unfold update_item setattrPy
    rw [if_neg (by simpa using hlast)]
    rw [applyKwargs_append_single]
    rw [applyKwargs_hasattr kwargs it.attrs k, hh, if_pos rfl]
    show (if (k == k) = true then some v else applyKwargs it.attrs kwargs k) = some v
    rw [if_pos (by rw [beq_iff_eq])]

/-- C10 (witness): on a concrete item, an unknown key `bogus` is ignored
while `file_name` is untouched; appending a known key `active` sets it; and
`last_updated` is overwritten even by an empty map. -/
theorem update_item_spec_witness :
    update_item exItemA.attrs [("bogus", .str "x")] 9 "file_name"
      = some (.str "a.pdf") ∧
    update_item exItemA.attrs ([("file_name", .str "b.pdf")] ++ [("active", .flag false)])
      9 "active" = some (.flag false) ∧
    update_item exItemA.attrs [] 9 "last_updated" = some (.time 9) :=
  ⟨(update_item_spec exItemA [("bogus", .str "x")] 9).2.1 "file_name"
      (by decide) (by decide),
   (update_item_spec exItemA [("file_name", .str "b.pdf")] 9).2.2.2 "active"
      (.flag false) (by decide) (by decide),
   (update_item_spec exItemA [] 9).1⟩

/-- Every hit of a possible search result is the projection of some matching
row of the join. -/
theorem search_result_rows (s : DBState) (dist : Vec → Vec → ℚ) (q : Vec)
    (limit : Nat) (ao : Bool) (result : List Hit)
    (h : search_similar_chunks s dist q limit ao result) :
    ∀ hit ∈ result, ∃ r ∈ matchingRows s ao, hit = rowToHit dist q r := by
  obtain ⟨perm, hperm, _, hres⟩ := h
  subst hres
  intro hit hmem
  rw [List.mem_map] at hmem
  obtain ⟨r, hr, rfl⟩ := hmem
  exact ⟨r, hperm.mem_iff.mpr (List.take_subset limit perm hr), rfl⟩

/-- C3 (confirmed): every hit of any possible result comes from a chunk whose
vector is present, joined to its parent item, and when `active_only = true`
that parent is active; and with `active_only = false` a chunk of an inactive
(soft-deleted) parent is still included — whenever the limit covers the
matching rows, its hit is in every possible result. -/
theorem search_filters_spec (s : DBState) (dist : Vec → Vec → ℚ) (q : Vec)
    (limit : Nat) (ao : Bool) (result : List Hit) (i : Item) (e : Chunk)
    (h : search_similar_chunks s dist q limit ao result) :
    (∀ hit ∈ result, ∃ i2 e2, i2 ∈ s.items ∧ e2 ∈ s.chunks ∧ i2.id = e2.item_id ∧
        e2.embedding.isSome = true ∧ (ao = true → i2.active = true) ∧
        hit = rowToHit dist q (i2, e2)) ∧
    (ao = false → i ∈ s.items → e ∈ s.chunks → i.id = e.item_id →
      e.embedding.isSome = true → (matchingRows s ao).length ≤ limit →
      rowToHit dist q (i, e) ∈ result) := by
  constructor
  · intro hit hmem
    obtain ⟨r, hr, rfl⟩ := search_result_rows s dist q limit ao result h hit hmem
    obtain ⟨i2, e2⟩ := r
    obtain ⟨he, hsome, hi, hid, hact⟩ := (mem_matchingRows s ao i2 e2).mp hr
    exact ⟨i2, e2, hi, he, hid, hsome, hact, rfl⟩
  · intro hao hi he hid hsome hlen
    obtain ⟨perm, hperm, _, hres⟩ := h
    subst hres
    have hmem : (i, e) ∈ matchingRows s ao := by
      rw [mem_matchingRows]
      refine ⟨he, hsome, hi, hid, ?_⟩
      intro h1
      rw [hao] at h1
      exact absurd h1 (by decide)
    have hlen2 : perm.length ≤ limit := by
      rw [← hperm.length_eq]
      exact hlen
    rw [List.take_of_length_le hlen2]
    exact List.mem_map.mpr ⟨(i, e), hperm.mem_iff.mp hmem, rfl⟩

/-- C3 (witness): in a concrete state where `docB` is soft-deleted, a search
with `active_only = false` and a covering limit contains the hit for `docB`'s
chunk, while the vectorless chunk of `docA` can never appear. -/
theorem search_filters_spec_witness :
    rowToHit dist0 [9] (exItemB, exChunkB1) ∈
      ((matchingRows exState2 false).take 5).map (rowToHit dist0 [9]) :=
  (search_filters_spec exState2 dist0 [9] 5 false
      (((matchingRows exState2 false).take 5).map (rowToHit dist0 [9]))
      exItemB exChunkB1
      ⟨matchingRows exState2 false, List.Perm.refl _,
        chain'_of_forall (fun _ _ => le_refl (0 : ℚ)) _, rfl⟩).2
    rfl (by decide) (by decide) (by decide) (by decide) (by decide)

/-- C1 (counterexample): the claim instantiated at requesting owner
A = "alice".  `search_similar_chunks` takes no owner argument and its SQL has
no owner condition, so on a store holding bob's document the query (issued on
behalf of alice, like on behalf of anyone) admits a result whose hit belongs
to owner "bob" ≠ "alice": the ranked hits are not restricted to the
requesting owner's documents. -/
theorem search_owner_isolation_cex :
    search_similar_chunks bobState dist0 [1] 5 true
      [rowToHit dist0 [1] (exItemBob, exChunkC1)] ∧
    (rowToHit dist0 [1] (exItemBob, exChunkC1)).owner = "bob" ∧
    ("bob" : String) ≠ "alice" :=
  ⟨⟨matchingRows bobState true, List.Perm.refl _,
      chain'_of_forall (fun _ _ => le_refl (0 : ℚ)) _, rfl⟩,
    rfl, by decide⟩

/-- C1 (amended): the vector search applies no owner restriction — for every
requesting owner A, every matching row whose parent document belongs to some
other owner appears in a possible result (with a covering limit), so hits of
owners other than the requester are returned. -/
theorem search_no_owner_filter (s : DBState) (dist : Vec → Vec → ℚ) (q : Vec)
    (ao : Bool) (A : String) (r : Item × Chunk)
    (hr : r ∈ matchingRows s ao) (hA : r.1.owner ≠ A) :
    ∃ result, search_similar_chunks s dist q (matchingRows s ao).length ao result ∧
      ∃ hit ∈ result, hit.owner ≠ A := by
  haveI : IsTotal (Item × Chunk) (fun a b => rowDist dist q a ≤ rowDist dist q b) :=
    ⟨fun _ _ => le_total _ _⟩
  haveI : IsTrans (Item × Chunk) (fun a b => rowDist dist q a ≤ rowDist dist q b) :=
    ⟨fun _ _ _ hab hbc => le_trans hab hbc⟩
  refine ⟨((List.insertionSort (fun a b => rowDist dist q a ≤ rowDist dist q b)
        (matchingRows s ao)).take (matchingRows s ao).length).map (rowToHit dist q),
    ⟨List.insertionSort (fun a b => rowDist dist q a ≤ rowDist dist q b)
        (matchingRows s ao),
      (List.perm_insertionSort _ _).symm,
      (List.sorted_insertionSort _ _).chain', rfl⟩, ?_⟩
  rw [List.take_of_length_le (le_of_eq (List.perm_insertionSort _ _).length_eq)]
  refine ⟨rowToHit dist q r, List.mem_map.mpr ⟨r, ?_, rfl⟩, hA⟩
  exact (List.perm_insertionSort _ _).mem_iff.mpr hr

/-- C1 (witness): for requesting owner "alice" on a store holding bob's
document, a possible result contains a hit not owned by "alice". -/
theorem search_no_owner_filter_witness :
    ∃ result,
      search_similar_chunks bobState dist0 [2] (matchingRows bobState true).length
        true result ∧
      ∃ hit ∈ result, hit.owner ≠ "alice" :=
  search_no_owner_filter bobState dist0 [2] true "alice" (exItemBob, exChunkC1)
    (by decide) (by decide)

/-- C6 (counterexample): the query's ORDER BY has no secondary key, so two
chunks at equal distance may come back in either order: both orders are
possible results of the very same query on the same state, and they differ —
ties are not broken deterministically, and repeating the query need not yield
the same order. -/
theorem search_tie_cex :
    search_similar_chunks tieState dist0 [7] 5 true
      [rowToHit dist0 [7] (exItemA, exChunkA1), rowToHit dist0 [7] (exItemA, exChunkA2)] ∧
    search_similar_chunks tieState dist0 [7] 5 true
      [rowToHit dist0 [7] (exItemA, exChunkA2), rowToHit dist0 [7] (exItemA, exChunkA1)] ∧
    [rowToHit dist0 [7] (exItemA, exChunkA1), rowToHit dist0 [7] (exItemA, exChunkA2)] ≠
      [rowToHit dist0 [7] (exItemA, exChunkA2), rowToHit dist0 [7] (exItemA, exChunkA1)] :=
  ⟨⟨matchingRows tieState true, List.Perm.refl _,
      chain'_of_forall (fun _ _ => le_refl (0 : ℚ)) _, rfl⟩,
   ⟨[(exItemA, exChunkA2), (exItemA, exChunkA1)], by decide,
      chain'_of_forall (fun _ _ => le_refl (0 : ℚ)) _, rfl⟩,
   by
    intro hcon
    have hpages := congrArg (fun l => l.map Hit.page) hcon
    simp [rowToHit, exChunkA1, exChunkA2] at hpages⟩

/-- C6 (amended): every hit's similarity equals 1 minus the distance between
the chunk's vector and the query vector, and every possible result is ordered
by nonincreasing similarity; the order of hits at equal similarity is left
unspecified by the query. -/
theorem search_score_order_spec (s : DBState) (dist : Vec → Vec → ℚ) (q : Vec)
    (limit : Nat) (ao : Bool) (result : List Hit)
    (h : search_similar_chunks s dist q limit ao result) :
    (∀ hit ∈ result, ∃ r ∈ matchingRows s ao,
        hit = rowToHit dist q r ∧ hit.similarity = 1 - rowDist dist q r) ∧
    result.Chain' (fun h1 h2 => h2.similarity ≤ h1.similarity) := by
  constructor
  · intro hit hmem
    obtain ⟨r, hr, rfl⟩ := search_result_rows s dist q limit ao result h hit hmem
    exact ⟨r, hr, rfl, rfl⟩
  · obtain ⟨perm, _, hchain, hres⟩ := h
    subst hres
    rw [List.chain'_map]
    exact (hchain.take limit).imp (fun a b hab => by
      show (rowToHit dist q b).similarity ≤ (rowToHit dist q a).similarity
      simp only [rowToHit]
      exact sub_le_sub_left hab 1)

/-- C6 (witness): a concrete possible result has its similarities in
nonincreasing order. -/
theorem search_score_order_spec_witness :
    (((matchingRows exState2 true).take 5).map (rowToHit dist0 [3])).Chain'
      (fun h1 h2 => h2.similarity ≤ h1.similarity) :=
  (search_score_order_spec exState2 dist0 [3] 5 true
      (((matchingRows exState2 true).take 5).map (rowToHit dist0 [3]))
      ⟨matchingRows exState2 true, List.Perm.refl _,
        chain'_of_forall (fun _ _ => le_refl (0 : ℚ)) _, rfl⟩).2

/-- Chunk `n` of the 1001-chunk document used for the limit counterexample. -/
def bigChunk (n : Nat) : Chunk :=
  { item_id := "docA", page := n, chunk_text := "t", embedding := some [0]
    last_updated := 0 }

/-- A state holding one active document with 1001 vectorised chunks. -/
def bigState : DBState :=
  { items := [exItemA], chunks := (List.range 1001).map bigChunk }

/-- Every chunk of `bigState` joins exactly with `exItemA`. -/
theorem matchingRows_bigState :
    matchingRows bigState true = ((List.range 1001).map bigChunk).map fun e => (exItemA, e) := by
  simp only [matchingRows, bigState]
  rw [List.filter_eq_self.mpr ?hall]
  case hall =>
    intro e he
    obtain ⟨n, _, rfl⟩ := List.mem_map.mp he
    rfl
  rw [List.flatMap_congr ?hcong, flatMap_singleton_eq_map]
  case hcong =>
    intro e he
    obtain ⟨n, _, rfl⟩ := List.mem_map.mp he
    show ([exItemA].filter fun i => i.id == (bigChunk n).item_id && (!true || i.active)).map
      (fun i => (i, bigChunk n)) = [(exItemA, bigChunk n)]
    rfl

set_option maxRecDepth 8000 in
/-- C9 (counterexample): no bound is checked or clamped: `limit` flows
straight into the SQL LIMIT, so a request with the absurd bound k = 1001 on a
store with 1001 matching chunks returns 1001 hits — more than the claimed
cap of 1000. -/
theorem search_limit_cex :
    search_similar_chunks bigState dist0 [0] 1001 true
      (((matchingRows bigState true).take 1001).map (rowToHit dist0 [0])) ∧
    1000 < (((matchingRows bigState true).take 1001).map (rowToHit dist0 [0])).length := by
  have hlen : (matchingRows bigState true).length = 1001 := by
    rw [matchingRows_bigState]
    simp
  constructor
  · exact ⟨matchingRows bigState true, List.Perm.refl _,
      chain'_of_forall (fun a b => le_refl (0 : ℚ)) _, rfl⟩
  · rw [List.length_map, List.length_take, hlen]
    simp

/-- C9 (amended): `search_similar_chunks` performs no validation of `limit`;
every possible result has exactly `min limit (#matching rows)` hits, so any
`limit` above 1000 yields above-1000 results whenever enough chunks match. -/
theorem search_limit_passthrough (s : DBState) (dist : Vec → Vec → ℚ) (q : Vec)
    (limit : Nat) (ao : Bool) (result : List Hit)
    (h : search_similar_chunks s dist q limit ao result) :
    result.length = min limit (matchingRows s ao).length := by
  obtain ⟨perm, hperm, _, hres⟩ := h
  subst hres
  rw [List.length_map, List.length_take, hperm.length_eq]

/-- C9 (witness): a concrete search returns `min limit (#matching)` hits. -/
theorem search_limit_passthrough_witness :
    (((matchingRows exState1 true).take 5).map (rowToHit dist0 [4])).length =
      min 5 (matchingRows exState1 true).length :=
  search_limit_passthrough exState1 dist0 [4] 5 true
    (((matchingRows exState1 true).take 5).map (rowToHit dist0 [4]))
    ⟨matchingRows exState1 true, List.Perm.refl _,
      chain'_of_forall (fun _ _ => le_refl (0 : ℚ)) _, rfl⟩

end DriveChat
